import Mathlib

/-!
# Verification of the logo-similarity orchestration script

A shallow embedding of the repository's Python sources
(`src/config.py`, `src/logo_similarity.py`, `src/utils/gcs.py`,
`src/utils/spreadsheet.py`) as executable Lean definitions, followed by
theorems settling the specification's claims about them.

Conventions of the embedding:
* Python strings are Lean `String`s; where a Python string operation has no
  kernel-friendly Lean counterpart, the operation is modelled over the
  string's character list (`String.data`), matching Python's semantics on
  the inputs the script handles (ASCII file names and resource paths).
* Network effects are replaced by oracles: a transport function gives the
  outcome of each HTTP attempt, and the managed service's creation
  responses are parameters of the workflow driver.  The driver and the
  batch loop then compute the list of outgoing calls (a trace), which is
  what the claims speak about.
* `datetime.now().strftime` of the day is a `date` parameter: a fixed
  string standing for the formatted current date of the run.
-/

namespace LogoSim

/-! ## config.py -/

/-- `config.py`: `BATCH_SIZE = 100`, the number of images per batch. -/
def BATCH_SIZE : Nat := 100

/-- `config.py`: `MAX_RETRIES = 3`, number of retries for API calls. -/
def MAX_RETRIES : Nat := 3

/-- `config.py`: `TIMEOUT = 300`, per-call timeout in seconds. -/
def TIMEOUT : Nat := 300

/-- `config.py`: `SUPPORTED_FORMATS = ('.jpg', '.jpeg', '.png')`. -/
def SUPPORTED_FORMATS : List String := [".jpg", ".jpeg", ".png"]

/-- `config.py`: `SPREADSHEET_COLUMNS`. -/
def SPREADSHEET_COLUMNS : List String :=
  ["Query Image", "Similar Image", "Similarity Score"]

/-! ## The API gateway: `LogoSimilarityAnalyzer._make_request`

`_make_request(method, endpoint, data, retry_count)` issues
`requests.post`/`requests.get`, calls `response.raise_for_status()`, and on
any `requests.exceptions.RequestException` recurses with `retry_count + 1`
while `retry_count < MAX_RETRIES`, finally raising a terminal `Exception`
that carries the last underlying error.  The HTTP layer is an oracle
`transport` giving the outcome of the attempt made at each `retry_count`
for the (fixed) method, endpoint and payload of the call. -/

/-- A transport-level failure, i.e. a `requests.exceptions.RequestException`:
a network error, a timeout, or the `HTTPError` that `raise_for_status`
raises for an error status code.  The script's retry logic never inspects
which of these occurred. -/
inductive RequestError where
  | networkError
  | timeoutError
  | httpError (status : Nat)
deriving DecidableEq, Repr

/-- An exception surfacing out of `_make_request`: the `UnboundLocalError`
Python raises when `response` was never assigned (method neither `"POST"`
nor `"GET"`), or the terminal
`Exception("Request failed after ... retries: ...")` raised once the retry
budget is exhausted, carrying the retry bound and the last transport
error. -/
inductive PyError where
  | unboundLocal (varName : String)
  | requestFailed (retries : Nat) (last : RequestError)
deriving DecidableEq, Repr

/-- `LogoSimilarityAnalyzer._make_request` from `src/logo_similarity.py`.
`transport method endpoint data retryCount` is the outcome of the HTTP
attempt made with those arguments at that attempt index.  Faithful to the
source: the request dispatch covers only `"POST"` and `"GET"` (any other
method leaves Python's `response` variable unbound, raising an
`UnboundLocalError` that is not a `RequestException` and hence is not
retried); on a transport error the identical request is retried with
`retry_count + 1` while `retry_count < MAX_RETRIES`; otherwise the terminal
exception carrying the last error is raised. -/
def makeRequest {α : Type} (transport : String → String → Option String → Nat → Except RequestError α)
    (method endpoint : String) (data : Option String) (retryCount : Nat) :
    Except PyError α :=
  if method = "POST" ∨ method = "GET" then
    match transport method endpoint data retryCount with
    | Except.ok r => Except.ok r
    | Except.error e =>
      if h : retryCount < MAX_RETRIES then
        makeRequest transport method endpoint data (retryCount + 1)
      else
        Except.error (PyError.requestFailed MAX_RETRIES e)
  else
    Except.error (PyError.unboundLocal "response")
termination_by MAX_RETRIES + 1 - retryCount
decreasing_by omega

/-- The attempt indices at which `makeRequest` consults the transport, in
order: one entry per HTTP attempt actually made.  Mirrors the recursion of
`makeRequest` exactly. -/
def attemptIndices {α : Type} (transport : String → String → Option String → Nat → Except RequestError α)
    (method endpoint : String) (data : Option String) (retryCount : Nat) :
    List Nat :=
  if method = "POST" ∨ method = "GET" then
    match transport method endpoint data retryCount with
    | Except.ok _ => [retryCount]
    | Except.error _ =>
      if h : retryCount < MAX_RETRIES then
        retryCount :: attemptIndices transport method endpoint data (retryCount + 1)
      else
        [retryCount]
  else
    []
termination_by MAX_RETRIES + 1 - retryCount
decreasing_by omega

section RetryLemmas

variable {α : Type}
variable (t : String → String → Option String → Nat → Except RequestError α)
variable (m ep : String) (d : Option String)

theorem makeRequest_ok (hm : m = "POST" ∨ m = "GET") (rc : Nat) (r : α)
    (h : t m ep d rc = Except.ok r) :
    makeRequest t m ep d rc = Except.ok r := by
  rw [makeRequest, if_pos hm, h]

theorem makeRequest_err_step (hm : m = "POST" ∨ m = "GET") (rc : Nat) (e : RequestError)
    (h : t m ep d rc = Except.error e) (hlt : rc < MAX_RETRIES) :
    makeRequest t m ep d rc = makeRequest t m ep d (rc + 1) := by
  rw [makeRequest, if_pos hm, h]
  simp [hlt]

theorem makeRequest_err_last (hm : m = "POST" ∨ m = "GET") (rc : Nat) (e : RequestError)
    (h : t m ep d rc = Except.error e) (hge : ¬ rc < MAX_RETRIES) :
    makeRequest t m ep d rc = Except.error (PyError.requestFailed MAX_RETRIES e) := by
  rw [makeRequest, if_pos hm, h]
  simp [hge]

theorem attemptIndices_ok (hm : m = "POST" ∨ m = "GET") (rc : Nat) (r : α)
    (h : t m ep d rc = Except.ok r) :
    attemptIndices t m ep d rc = [rc] := by
  rw [attemptIndices, if_pos hm, h]

theorem attemptIndices_err_step (hm : m = "POST" ∨ m = "GET") (rc : Nat) (e : RequestError)
    (h : t m ep d rc = Except.error e) (hlt : rc < MAX_RETRIES) :
    attemptIndices t m ep d rc = rc :: attemptIndices t m ep d (rc + 1) := by
  rw [attemptIndices, if_pos hm, h]
  simp [hlt]

theorem attemptIndices_err_last (hm : m = "POST" ∨ m = "GET") (rc : Nat) (e : RequestError)
    (h : t m ep d rc = Except.error e) (hge : ¬ rc < MAX_RETRIES) :
    attemptIndices t m ep d rc = [rc] := by
  rw [attemptIndices, if_pos hm, h]
  simp [hge]

end RetryLemmas

/-- The bundled behaviour of one recursion step of `attemptIndices`, proved
for every starting `retryCount` by induction on the remaining retry
budget: the consulted attempt indices form the contiguous run
`retryCount, retryCount + 1, ...`, and their number is bounded by the
remaining budget (by `1` once the budget is spent). -/
theorem attemptIndices_spec {α : Type}
    (t : String → String → Option String → Nat → Except RequestError α)
    (m ep : String) (d : Option String) :
    ∀ fuel rc, MAX_RETRIES + 1 - rc ≤ fuel →
      attemptIndices t m ep d rc =
        List.range' rc (attemptIndices t m ep d rc).length ∧
      (rc ≤ MAX_RETRIES → (attemptIndices t m ep d rc).length ≤ MAX_RETRIES + 1 - rc) ∧
      (MAX_RETRIES < rc → (attemptIndices t m ep d rc).length ≤ 1) := by
  intro fuel
  induction fuel with
  | zero =>
    intro rc hrc
    have hgt : MAX_RETRIES < rc := by omega
    by_cases hm : m = "POST" ∨ m = "GET"
    · cases ht : t m ep d rc with
      | ok r =>
        rw [attemptIndices_ok t m ep d hm rc r ht]
        refine ⟨by simp [List.range'], fun h => by simp; omega, fun _ => by simp⟩
      | error e =>
        rw [attemptIndices_err_last t m ep d hm rc e ht (by omega)]
        refine ⟨by simp [List.range'], fun h => by simp; omega, fun _ => by simp⟩
    · rw [attemptIndices, if_neg hm]
      exact ⟨by simp [List.range'], fun _ => by simp, fun _ => by simp⟩
  | succ n ih =>
    intro rc hrc
    by_cases hm : m = "POST" ∨ m = "GET"
    · cases ht : t m ep d rc with
      | ok r =>
        rw [attemptIndices_ok t m ep d hm rc r ht]
        refine ⟨by simp [List.range'], fun h => by simp; omega, fun _ => by simp⟩
      | error e =>
        by_cases hlt : rc < MAX_RETRIES
        · rw [attemptIndices_err_step t m ep d hm rc e ht hlt]
          obtain ⟨ih1, ih2, _⟩ := ih (rc + 1) (by omega)
          have hlen := ih2 (by omega)
          refine ⟨?_, fun _ => by simp; omega, fun h => by omega⟩
          simp only [List.length_cons]
          rw [List.range'_succ]
          exact congrArg (rc :: ·) ih1
        · rw [attemptIndices_err_last t m ep d hm rc e ht hlt]
          refine ⟨by simp [List.range'], fun h => by simp; omega, fun _ => by simp⟩
    · rw [attemptIndices, if_neg hm]
      exact ⟨by simp [List.range'], fun _ => by simp, fun _ => by simp⟩

/-- C10: the self-recursive retry of `_make_request` terminates; starting
from `retry_count = 0` the counter increases strictly by `1` per recursive
call (the attempt indices are exactly `0, 1, 2, ...`), and the recursion
depth — the total number of HTTP attempts — is bounded by
`MAX_RETRIES + 1`. -/
theorem makeRequest_retry_terminates {α : Type}
    (t : String → String → Option String → Nat → Except RequestError α)
    (m ep : String) (d : Option String) :
    (attemptIndices t m ep d 0).length ≤ MAX_RETRIES + 1 ∧
    attemptIndices t m ep d 0 = List.range ((attemptIndices t m ep d 0).length) := by
  obtain ⟨h1, h2, _⟩ :=
    attemptIndices_spec t m ep d (MAX_RETRIES + 1) 0 (by omega)
  refine ⟨by simpa using h2 (by omega), ?_⟩
  rw [List.range_eq_range']
  exact h1

/-- C2: retry semantics of `_make_request` for a well-formed method.  Over
any transport oracle (the attempt outcomes may be network errors, timeouts,
or HTTP error statuses — 4xx and 5xx alike, the code never inspects which):
a call whose first success comes at attempt index `k` (`k ≤ MAX_RETRIES`,
i.e. the `(k+1)`-st attempt with `k + 1 ≤ MAX_RETRIES + 1`) returns that
success having made exactly the attempts `0, ..., k` and no further ones;
a call all of whose `MAX_RETRIES + 1` permitted attempts fail makes exactly
`MAX_RETRIES + 1` attempts and raises the terminal error carrying the last
underlying transport error.  Every attempt repeats the identical request:
the same `method`, `endpoint` and `data` are passed to the transport. -/
theorem makeRequest_retry_semantics {α : Type}
    (t : String → String → Option String → Nat → Except RequestError α)
    (m ep : String) (d : Option String) (hm : m = "POST" ∨ m = "GET") :
    (∀ k (r : α), k ≤ MAX_RETRIES →
      (∀ i, i < k → ∃ e, t m ep d i = Except.error e) →
      t m ep d k = Except.ok r →
      makeRequest t m ep d 0 = Except.ok r ∧
      attemptIndices t m ep d 0 = List.range (k + 1)) ∧
    (∀ es : Nat → RequestError,
      (∀ i, i ≤ MAX_RETRIES → t m ep d i = Except.error (es i)) →
      makeRequest t m ep d 0 =
        Except.error (PyError.requestFailed MAX_RETRIES (es MAX_RETRIES)) ∧
      (attemptIndices t m ep d 0).length = MAX_RETRIES + 1) := by
  have hMR : MAX_RETRIES = 3 := rfl
  constructor
  · intro k r hk hprev hok
    rw [hMR] at hk
    interval_cases k
    · exact ⟨makeRequest_ok t m ep d hm 0 r hok,
        by rw [attemptIndices_ok t m ep d hm 0 r hok]; rfl⟩
    · obtain ⟨e0, he0⟩ := hprev 0 (by omega)
      refine ⟨?_, ?_⟩
      · rw [makeRequest_err_step t m ep d hm 0 e0 he0 (by simp only [hMR]; omega)]
        exact makeRequest_ok t m ep d hm 1 r hok
      · rw [attemptIndices_err_step t m ep d hm 0 e0 he0 (by simp only [hMR]; omega),
          attemptIndices_ok t m ep d hm 1 r hok]
        rfl
    · obtain ⟨e0, he0⟩ := hprev 0 (by omega)
      obtain ⟨e1, he1⟩ := hprev 1 (by omega)
      refine ⟨?_, ?_⟩
      · rw [makeRequest_err_step t m ep d hm 0 e0 he0 (by simp only [hMR]; omega),
          makeRequest_err_step t m ep d hm 1 e1 he1 (by simp only [hMR]; omega)]
        exact makeRequest_ok t m ep d hm 2 r hok
      · rw [attemptIndices_err_step t m ep d hm 0 e0 he0 (by simp only [hMR]; omega),
          attemptIndices_err_step t m ep d hm 1 e1 he1 (by simp only [hMR]; omega),
          attemptIndices_ok t m ep d hm 2 r hok]
        rfl
    · obtain ⟨e0, he0⟩ := hprev 0 (by omega)
      obtain ⟨e1, he1⟩ := hprev 1 (by omega)
      obtain ⟨e2, he2⟩ := hprev 2 (by omega)
      refine ⟨?_, ?_⟩
      · rw [makeRequest_err_step t m ep d hm 0 e0 he0 (by simp only [hMR]; omega),
          makeRequest_err_step t m ep d hm 1 e1 he1 (by simp only [hMR]; omega),
          makeRequest_err_step t m ep d hm 2 e2 he2 (by simp only [hMR]; omega)]
        exact makeRequest_ok t m ep d hm 3 r hok
      · rw [attemptIndices_err_step t m ep d hm 0 e0 he0 (by simp only [hMR]; omega),
          attemptIndices_err_step t m ep d hm 1 e1 he1 (by simp only [hMR]; omega),
          attemptIndices_err_step t m ep d hm 2 e2 he2 (by simp only [hMR]; omega),
          attemptIndices_ok t m ep d hm 3 r hok]
        rfl
  · intro es hall
    have he0 := hall 0 (by simp only [hMR]; omega)
    have he1 := hall 1 (by simp only [hMR]; omega)
    have he2 := hall 2 (by simp only [hMR]; omega)
    have he3 := hall 3 (by simp only [hMR]; omega)
    refine ⟨?_, ?_⟩
    · rw [makeRequest_err_step t m ep d hm 0 (es 0) he0 (by simp only [hMR]; omega),
        makeRequest_err_step t m ep d hm 1 (es 1) he1 (by simp only [hMR]; omega),
        makeRequest_err_step t m ep d hm 2 (es 2) he2 (by simp only [hMR]; omega),
        makeRequest_err_last t m ep d hm 3 (es 3) he3 (by simp only [hMR]; omega)]
      rw [hMR]
    · rw [attemptIndices_err_step t m ep d hm 0 (es 0) he0 (by simp only [hMR]; omega),
        attemptIndices_err_step t m ep d hm 1 (es 1) he1 (by simp only [hMR]; omega),
        attemptIndices_err_step t m ep d hm 2 (es 2) he2 (by simp only [hMR]; omega),
        attemptIndices_err_last t m ep d hm 3 (es 3) he3 (by simp only [hMR]; omega)]
      rfl

/-- A concrete transport for exercising the retry theorems: the first two
attempts fail (one client error, one server error — treated identically),
the third succeeds with payload `42`. -/
def sampleTransport : String → String → Option String → Nat → Except RequestError Nat :=
  fun _ _ _ rc =>
    if rc = 0 then Except.error (RequestError.httpError 404)
    else if rc = 1 then Except.error (RequestError.httpError 503)
    else Except.ok 42

/-- Witness for C2: on `sampleTransport`, whose attempts 0 and 1 fail with
a 404 and a 503 and whose attempt 2 succeeds, the gateway returns the
success and makes exactly the three attempts `0, 1, 2`. -/
theorem makeRequest_retry_semantics_witness :
    makeRequest sampleTransport "POST" "corpora" (some "body") 0 = Except.ok 42 ∧
    attemptIndices sampleTransport "POST" "corpora" (some "body") 0 = List.range 3 :=
  (makeRequest_retry_semantics sampleTransport "POST" "corpora" (some "body")
      (Or.inl rfl)).1 2 42 (by decide)
    (fun i hi => by
      match i, hi with
      | 0, _ => exact ⟨RequestError.httpError 404, rfl⟩
      | 1, _ => exact ⟨RequestError.httpError 503, rfl⟩)
    rfl

/-- C9: for a method other than `"POST"` or `"GET"`, neither branch of the
dispatch assigns `response`, so `_make_request` fails at once with Python's
unbound-variable error: no HTTP attempt is made and the documented
retry-then-terminal-error path is never entered. -/
theorem makeRequest_bad_method {α : Type}
    (t : String → String → Option String → Nat → Except RequestError α)
    (m ep : String) (d : Option String)
    (h1 : m ≠ "POST") (h2 : m ≠ "GET") :
    makeRequest t m ep d 0 = Except.error (PyError.unboundLocal "response") ∧
    attemptIndices t m ep d 0 = [] := by
  have hm : ¬ (m = "POST" ∨ m = "GET") := by
    rintro (h | h)
    · exact h1 h
    · exact h2 h
  constructor
  · rw [makeRequest, if_neg hm]
  · rw [attemptIndices, if_neg hm]

/-- Witness for C9: a `"DELETE"` request fails with the unbound-variable
error without consulting the transport at all. -/
theorem makeRequest_bad_method_witness :
    makeRequest sampleTransport "DELETE" "corpora" none 0 =
      Except.error (PyError.unboundLocal "response") ∧
    attemptIndices sampleTransport "DELETE" "corpora" none 0 = [] :=
  makeRequest_bad_method sampleTransport "DELETE" "corpora" none
    (by decide) (by decide)

/-! ## Python builtins used by the batch loop

`process_images` iterates `for i in range(0, len(image_files), BATCH_SIZE)`
and slices `image_files[i : i + BATCH_SIZE]`. -/

/-- Python's `range(start, stop, step)` for a positive step: the ascending
indices `start, start + step, ...` strictly below `stop` (empty when
`start ≥ stop`; Python rejects `step = 0`, which this model maps to the
empty range). -/
def pyRange (start stop step : Nat) : List Nat :=
  if h : 0 < step ∧ start < stop then
    start :: pyRange (start + step) stop step
  else
    []
termination_by stop - start
decreasing_by omega

/-- Python's slice `l[start : stop]` for `0 ≤ start ≤ stop` (out-of-range
bounds clamp, as in Python). -/
def listSlice {α : Type} (l : List α) (start stop : Nat) : List α :=
  (l.drop start).take (stop - start)

/-- The chunks the loop of `process_images` iterates over, for a general
chunk size `B`: `l[i : i + B]` for `i in range(0, len(l), B)`.  The source
instantiates `B` with `BATCH_SIZE`. -/
def batches {α : Type} (B : Nat) (l : List α) : List (List α) :=
  (pyRange 0 l.length B).map (fun i => listSlice l i (i + B))

theorem pyRange_pos (start stop step : Nat) (h : 0 < step ∧ start < stop) :
    pyRange start stop step = start :: pyRange (start + step) stop step := by
  rw [pyRange]
  simp [h]

theorem pyRange_neg (start stop step : Nat) (h : ¬ (0 < step ∧ start < stop)) :
    pyRange start stop step = [] := by
  rw [pyRange]
  simp only [h, dite_false]

/-- Translation invariance of `pyRange`: shifting both endpoints shifts the
produced indices. -/
theorem pyRange_shift (c step : Nat) :
    ∀ fuel a b, b - a ≤ fuel →
      pyRange (a + c) (b + c) step = (pyRange a b step).map (· + c) := by
  intro fuel
  induction fuel with
  | zero =>
    intro a b hab
    rw [pyRange_neg a b step (by omega), pyRange_neg (a + c) (b + c) step (by omega)]
    rfl
  | succ n ih =>
    intro a b hab
    by_cases h : 0 < step ∧ a < b
    · rw [pyRange_pos a b step h, pyRange_pos (a + c) (b + c) step ⟨h.1, by omega⟩]
      simp only [List.map_cons]
      have : a + c + step = a + step + c := by omega
      rw [this, ih (a + step) b (by omega)]
    · rw [pyRange_neg a b step h, pyRange_neg (a + c) (b + c) step (by omega)]
      rfl

/-- The tail of the index range of the batch loop, shifted to start at
zero. -/
theorem pyRange_shift_start (b step : Nat) (hb : step ≤ b) :
    pyRange step b step = (pyRange 0 (b - step) step).map (· + step) := by
  have h := pyRange_shift step step (b - step) 0 (b - step) (Nat.le_refl _)
  rw [Nat.zero_add, Nat.sub_add_cancel hb] at h
  exact h

theorem batches_nil {α : Type} (B : Nat) : batches B ([] : List α) = [] := by
  rw [batches, List.length_nil, pyRange_neg 0 0 B (by omega)]
  rfl

/-- Unfolding of one loop iteration: for a positive chunk size and a
non-empty list, the first chunk is `l.take B` and the remaining chunks are
the chunks of `l.drop B`. -/
theorem batches_cons {α : Type} (B : Nat) (l : List α) (hB : 0 < B) (hl : l ≠ []) :
    batches B l = l.take B :: batches B (l.drop B) := by
  have hlen : 0 < l.length := List.length_pos.mpr hl
  rw [batches, pyRange_pos 0 l.length B ⟨hB, hlen⟩]
  simp only [List.map_cons, Nat.zero_add]
  rw [show listSlice l 0 B = l.take B by simp [listSlice]]
  congr 1
  by_cases hBl : B ≤ l.length
  · rw [pyRange_shift_start l.length B hBl]
    rw [batches, List.length_drop, List.map_map]
    apply List.map_congr_left
    intro i _
    simp only [Function.comp_apply, listSlice, List.drop_drop]
    have h3 : i + B + B - (i + B) = B := by omega
    have h4 : i + B - i = B := by omega
    rw [h3, h4, Nat.add_comm B i]
  · have hd : l.drop B = [] := List.drop_eq_nil_of_le (by omega)
    rw [hd, batches_nil, pyRange_neg B l.length B (by omega)]
    rfl

/-- The partition property of the batch loop, for every list and every
positive chunk size: the chunk count is the ceiling of `N / B`, the chunks
concatenate back to the input (contiguous, in order), and the chunk sizes
are `B` throughout except for a final chunk of `N mod B` when `B` does not
divide `N`. -/
theorem batches_spec_aux {α : Type} (B : Nat) (hB : 0 < B) :
    ∀ fuel (l : List α), l.length ≤ fuel →
      (batches B l).length = (l.length + B - 1) / B ∧
      (batches B l).flatten = l ∧
      (batches B l).map List.length =
        (if l.length = 0 then []
         else List.replicate ((l.length + B - 1) / B - 1) B ++
           [if l.length % B = 0 then B else l.length % B]) := by
  intro fuel
  induction fuel with
  | zero =>
    intro l hl
    have : l = [] := List.length_eq_zero.mp (by omega)
    subst this
    rw [batches_nil]
    refine ⟨?_, rfl, by simp⟩
    simp only [List.length_nil, Nat.zero_add]
    rw [Nat.div_eq_of_lt (by omega)]
  | succ n ih =>
    intro l hl
    rcases eq_or_ne l [] with rfl | hne
    · rw [batches_nil]
      refine ⟨?_, rfl, by simp⟩
      simp only [List.length_nil, Nat.zero_add]
      rw [Nat.div_eq_of_lt (by omega)]
    · have hlen : 0 < l.length := List.length_pos.mpr hne
      rw [batches_cons B l hB hne]
      have hdroplen : (l.drop B).length = l.length - B := List.length_drop B l
      obtain ⟨ih1, ih2, ih3⟩ := ih (l.drop B) (by omega)
      have hceil : (l.length + B - 1) / B = (l.length - 1) / B + 1 := by
        have h1 : l.length + B - 1 = (l.length - 1) + B := by omega
        rw [h1, Nat.add_div_right _ hB]
      refine ⟨?_, ?_, ?_⟩
      · simp only [List.length_cons, ih1, hdroplen, hceil]
        by_cases hBl : B ≤ l.length
        · have h2 : l.length - B + B - 1 = l.length - 1 := by omega
          rw [h2]
        · have h2 : l.length - B = 0 := by omega
          rw [h2]
          simp only [Nat.zero_add]
          rw [Nat.div_eq_of_lt (by omega), Nat.div_eq_of_lt (by omega)]
      · simp only [List.flatten_cons, ih2, List.take_append_drop]
      · by_cases hBl : B < l.length
        · simp only [List.map_cons, ih3, hdroplen, hceil]
          have hB1 : (l.take B).length = B := by
            rw [List.length_take]
            omega
          have hne0 : ¬ (l.length - B = 0) := by omega
          have hmod : (l.length - B) % B = l.length % B := by
            conv_rhs => rw [show l.length = (l.length - B) + B by omega]
            rw [Nat.add_mod_right]
          have hcnt : (l.length - B + B - 1) / B = (l.length - 1) / B := by
            have h5 : l.length - B + B - 1 = l.length - 1 := by omega
            rw [h5]
          have hge1 : 1 ≤ (l.length - 1) / B := by
            apply (Nat.le_div_iff_mul_le hB).mpr
            omega
          rw [if_neg (show ¬ l.length = 0 by omega), if_neg hne0, hB1, hmod, hcnt]
          have hrep : List.replicate ((l.length - 1) / B + 1 - 1) B =
              B :: List.replicate ((l.length - 1) / B - 1) B := by
            have h6 : (l.length - 1) / B + 1 - 1 = ((l.length - 1) / B - 1) + 1 := by
              omega
            rw [h6, List.replicate_succ]
          rw [hrep]
          rfl
        · have hd : l.drop B = [] := List.drop_eq_nil_of_le (by omega)
          have htake : l.take B = l := List.take_of_length_le (by omega)
          rw [hd, batches_nil, htake, hceil]
          rw [if_neg (show ¬ l.length = 0 by omega)]
          have hcnt0 : (l.length - 1) / B = 0 := Nat.div_eq_of_lt (by omega)
          rw [hcnt0]
          simp only [List.map_cons, List.map_nil, List.replicate, List.nil_append,
            Nat.add_sub_cancel]
          rcases Nat.lt_or_ge l.length B with hlt | hge
          · rw [Nat.mod_eq_of_lt hlt, if_neg (show ¬ l.length = 0 by omega)]
          · have hEQ : l.length = B := by omega
            rw [hEQ, Nat.mod_self, if_pos rfl]

/-! ## Python string builtins

`process_images` filters with `file.lower().endswith(SUPPORTED_FORMATS)`,
`os.path.basename` takes the part after the last path separator, and the
driver extracts identifiers with `name.split("/")[-1]`.  These are modelled
over the character list of the string so that they are faithful to
Python's per-character semantics and evaluate in the kernel. -/

/-- Python's `str.lower()` (ASCII case folding, which covers the
extensions the script compares against). -/
def pyLower (s : String) : String :=
  String.mk (s.data.map Char.toLower)

/-- Python's `str.endswith(t)` for a single suffix. -/
def pyEndsWith (s t : String) : Bool :=
  t.data.isSuffixOf s.data

/-- Python's `str.split(sep)` for a one-character separator, over character
lists: splits at every occurrence of `sep`; the empty input yields one
empty component, so the result is never empty. -/
def pySplitChars (sep : Char) : List Char → List (List Char)
  | [] => [[]]
  | c :: cs =>
    if c = sep then [] :: pySplitChars sep cs
    else
      match pySplitChars sep cs with
      | [] => [[c]]
      | h :: t => (c :: h) :: t

/-- Python's `s.split(sep)` for a one-character separator. -/
def pySplit (s : String) (sep : Char) : List String :=
  (pySplitChars sep s.data).map (fun cs => String.mk cs)

/-- Python's `x[-1]` on the (never empty) result of a split: the last
component. -/
def lastComponent (parts : List String) : String :=
  parts.getLastD ""

/-- `os.path.basename` for POSIX paths: the part of the path after the
last `/` (equivalently, the last component of splitting on `/`). -/
def basename (p : String) : String :=
  lastComponent (pySplit p '/')

/-- The driver's identifier extraction,
`response["response"]["name"].split("/")[-1]`: the final slash-separated
segment of a resource name. -/
def extractId (name : String) : String :=
  lastComponent (pySplit name '/')

/-! ## utils/gcs.py -/

/-- `upload_to_gcs(bucket_name, source_file_path, destination_blob_name)`
from `src/utils/gcs.py`: uploads the local file and returns the URI
`gs://<bucket_name>/<destination_blob_name>` (an f-string of the bucket
and blob names; the source path affects only the uploaded bytes, not the
returned URI). -/
def uploadToGcs (bucketName sourceFilePath destinationBlobName : String) : String :=
  "gs://" ++ bucketName ++ "/" ++ destinationBlobName

/-! ## process_images: enumeration, destination paths, and the call trace -/

/-- The filter of `process_images`:
`file.lower().endswith(SUPPORTED_FORMATS)` — Python's tuple `endswith` is
true when some listed suffix matches. -/
def isSupported (file : String) : Bool :=
  SUPPORTED_FORMATS.any (fun ext => pyEndsWith (pyLower file) ext)

/-- The enumeration of `process_images`: `os.walk(image_dir)` is an oracle
`walk`, a list of `(root, files)` pairs in traversal order (the unused
directory component of each triple is omitted); for each root, each file
whose name passes `isSupported` contributes `os.path.join(root, file)`,
here `root ++ "/" ++ file` (POSIX join for a root without a trailing
separator). -/
def enumerateImages (walk : List (String × List String)) : List String :=
  walk.flatMap (fun rf => (rf.2.filter isSupported).map (fun f => rf.1 ++ "/" ++ f))

/-- The destination blob of an upload in `process_images`:
`logos/<date>/<basename of the image path>`, with `date` standing for
`datetime.now().strftime` of year, month and day as an eight-digit
string. -/
def destinationBlob (date imagePath : String) : String :=
  "logos/" ++ date ++ "/" ++ basename imagePath

/-- One outgoing side effect of the workflow, in program order. -/
inductive Event where
  | createCorpusCall
  | uploadCall (bucket sourcePath blobName returnedUri : String)
  | createAssetCall (corpusId gcsUri : String)
  | createIndexCall (corpusId : String)
  | createIndexEndpointCall (displayName : String)
  | deployIndexCall (endpointId corpusId indexId : String)
  | findNeighborsCall (endpointId gcsUri : String) (maxResults : Nat)
  | spreadsheetUpdateCall (spreadsheetId : String)
deriving DecidableEq, Repr

/-- The URIs collected by the first pass of a batch iteration of
`process_images` (`gcs_uris`): one upload per file of the batch, in
order. -/
def batchUploadUris (bucket date : String) (batch : List String) : List String :=
  batch.map (fun p => uploadToGcs bucket p (destinationBlob date p))

/-- The events of one batch iteration of `process_images`: first the
upload of every file of the batch (collecting `gcs_uris`), then one
`create_asset` call per collected URI, in the same order. -/
def batchTrace (corpusId bucket date : String) (batch : List String) : List Event :=
  batch.map (fun p =>
      Event.uploadCall bucket p (destinationBlob date p)
        (uploadToGcs bucket p (destinationBlob date p)))
    ++ (batchUploadUris bucket date batch).map
      (fun uri => Event.createAssetCall corpusId uri)

/-- The events of `process_images` over an already enumerated file list:
one batch iteration per index of `range(0, len(files), BATCH_SIZE)`, each
slicing `files[i : i + BATCH_SIZE]`. -/
def processImagesTrace (corpusId bucket date : String) (files : List String) : List Event :=
  (pyRange 0 files.length BATCH_SIZE).flatMap
    (fun i => batchTrace corpusId bucket date (listSlice files i (i + BATCH_SIZE)))

/-- The loop of `process_images` visits exactly the chunks of `batches`,
in order, each fully before the next. -/
theorem processImagesTrace_eq_batches (corpusId bucket date : String) (files : List String) :
    processImagesTrace corpusId bucket date files =
      (batches BATCH_SIZE files).flatMap (batchTrace corpusId bucket date) := by
  rw [processImagesTrace, batches, List.flatMap_map]

/-- C3: the batch loop of `process_images` partitions the enumerated file
list into contiguous chunks in order: for a list of length `N` and chunk
size `B > 0` it produces `(N + B - 1) / B` (the ceiling of `N / B`) chunks
whose concatenation is the original list; every chunk has size `B` except
possibly the last, whose size is `N mod B` when `B` does not divide `N`
and `B` otherwise.  The chunks are traversed one after the other: the
events of `process_images` are the concatenation, batch by batch, of each
chunk's trace (`BATCH_SIZE` is the instantiation the source uses). -/
theorem process_images_batching {α : Type} (l : List α) (B : Nat) (hB : 0 < B) :
    (batches B l).length = (l.length + B - 1) / B ∧
    (batches B l).flatten = l ∧
    (batches B l).map List.length =
      (if l.length = 0 then []
       else List.replicate ((l.length + B - 1) / B - 1) B ++
         [if l.length % B = 0 then B else l.length % B]) ∧
    (∀ corpusId bucket date (fs : List String),
      processImagesTrace corpusId bucket date fs =
        (batches BATCH_SIZE fs).flatMap (batchTrace corpusId bucket date)) := by
  obtain ⟨h1, h2, h3⟩ := batches_spec_aux B hB l.length l (Nat.le_refl _)
  exact ⟨h1, h2, h3, processImagesTrace_eq_batches⟩

/-- Witness for C3: a five-element list with chunk size two yields three
chunks, rebuilding the list, with sizes two, two and one
(`5 mod 2 = 1`). -/
theorem process_images_batching_witness :
    (batches 2 [10, 20, 30, 40, 50]).length = (5 + 2 - 1) / 2 ∧
    (batches 2 [10, 20, 30, 40, 50]).flatten = [10, 20, 30, 40, 50] ∧
    (batches 2 [10, 20, 30, 40, 50]).map List.length =
      (if ([10, 20, 30, 40, 50] : List Nat).length = 0 then []
       else List.replicate ((5 + 2 - 1) / 2 - 1) 2 ++
         [if ([10, 20, 30, 40, 50] : List Nat).length % 2 = 0 then 2 else 5 % 2]) ∧
    processImagesTrace "corp" "bkt" "20240101" ["x/a.jpg"] =
      (batches BATCH_SIZE ["x/a.jpg"]).flatMap (batchTrace "corp" "bkt" "20240101") := by
  have h := process_images_batching [10, 20, 30, 40, 50] 2 (by decide)
  refine ⟨by simpa using h.1, by simpa using h.2.1, by simpa using h.2.2.1,
    h.2.2.2 "corp" "bkt" "20240101" ["x/a.jpg"]⟩


/-! ## main: the workflow driver -/

/-- The event trace of `main` from `src/logo_similarity.py`, given the
oracles of a run on which every request succeeds: `walk` is the filesystem
traversal of `--image-dir`, `bucket` is `--bucket`, `spreadsheetId` is the
optional `--spreadsheet-id`, and `corpusName`, `indexName`, `endpointName`
are the `response.name` values of the three creation responses.  Faithful
to the source order: create corpus (its identifier extracted from the
response), process images, create index, create index endpoint, deploy
index; then, when a spreadsheet identifier was given, the source logs
"Saving results to spreadsheet..." and executes a bare `pass` — the
branch contributes no call. -/
def mainTrace (walk : List (String × List String)) (bucket : String)
    (spreadsheetId : Option String) (maxResults : Nat)
    (date corpusName indexName endpointName : String) : List Event :=
  let corpusId := extractId corpusName
  let indexId := extractId indexName
  let endpointId := extractId endpointName
  [Event.createCorpusCall]
    ++ processImagesTrace corpusId bucket date (enumerateImages walk)
    ++ [Event.createIndexCall corpusId]
    ++ [Event.createIndexEndpointCall ("logo_similarity_endpoint_" ++ date)]
    ++ [Event.deployIndexCall endpointId corpusId indexId]
    ++ (match spreadsheetId with
        | some _ => []
        | none => [])

/-- Whether a trace contains a similarity search or a spreadsheet write. -/
def hasSearchOrSave (tr : List Event) : Bool :=
  tr.any (fun e =>
    match e with
    | Event.findNeighborsCall _ _ _ => true
    | Event.spreadsheetUpdateCall _ => true
    | _ => false)

/-! ## Lemmas about the split-based path operations -/

theorem pySplitChars_ne_nil (sep : Char) (l : List Char) :
    pySplitChars sep l ≠ [] := by
  cases l with
  | nil => simp [pySplitChars]
  | cons c cs =>
    rw [pySplitChars]
    by_cases h : c = sep
    · simp [h]
    · simp only [h, if_false]
      cases hrec : pySplitChars sep cs with
      | nil => simp
      | cons hd tl => simp

/-- A separator-free character list splits into itself alone. -/
theorem pySplitChars_no_sep (sep : Char) (l : List Char) (h : sep ∉ l) :
    pySplitChars sep l = [l] := by
  induction l with
  | nil => rfl
  | cons c cs ih =>
    have hc : ¬ c = sep := fun hc => h (hc ▸ List.mem_cons_self c cs)
    have hcs : sep ∉ cs := fun hm => h (List.mem_cons_of_mem c hm)
    rw [pySplitChars]
    simp only [hc, if_false, ih hcs]

/-- Splitting a list with a known final separator whose suffix is
separator-free: the components are those of the part before the separator,
then the suffix. -/
theorem pySplitChars_append (sep : Char) (xs ys : List Char) (hy : sep ∉ ys) :
    pySplitChars sep (xs ++ sep :: ys) = pySplitChars sep xs ++ [ys] := by
  induction xs with
  | nil =>
    simp only [List.nil_append]
    conv_lhs => rw [pySplitChars]
    rw [if_pos rfl, pySplitChars_no_sep sep ys hy]
    rfl
  | cons c cs ih =>
    by_cases hc : c = sep
    · subst hc
      rw [List.cons_append]
      conv_lhs => rw [pySplitChars]
      rw [if_pos rfl, ih]
      conv_rhs => rw [pySplitChars]
      rw [if_pos rfl]
      rfl
    · rw [List.cons_append]
      conv_lhs => rw [pySplitChars]
      rw [if_neg hc, ih]
      conv_rhs => rw [pySplitChars]
      rw [if_neg hc]
      cases hrec : pySplitChars sep cs with
      | nil => exact absurd hrec (pySplitChars_ne_nil sep cs)
      | cons hd tl => rfl

/-- The character list of `a ++ "/" ++ b`. -/
theorem data_append_slash (a b : String) :
    (a ++ "/" ++ b).data = a.data ++ '/' :: b.data := by
  rw [String.data_append, String.data_append]
  rw [List.append_assoc]
  rfl

theorem pySplit_append_slash (a b : String) (hb : '/' ∉ b.data) :
    pySplit (a ++ "/" ++ b) '/' = pySplit a '/' ++ [b] := by
  rw [pySplit, data_append_slash, pySplitChars_append '/' a.data b.data hb,
    List.map_append, pySplit]
  rfl

/-- Identifier extraction really takes the final slash-separated segment:
prefixing any path and a slash leaves the extracted identifier at the
segment. -/
theorem extractId_append (a b : String) (hb : '/' ∉ b.data) :
    extractId (a ++ "/" ++ b) = b := by
  rw [extractId, pySplit_append_slash a b hb, lastComponent, List.getLastD_concat]

/-- `os.path.basename` of a path ending in a separator-free name is that
name, whatever the directory. -/
theorem basename_append (dir name : String) (h : '/' ∉ name.data) :
    basename (dir ++ "/" ++ name) = name := by
  rw [basename, pySplit_append_slash dir name h, lastComponent, List.getLastD_concat]

/-- The tuple `endswith` of the filter, unfolded over the fixed allow
list. -/
theorem isSupported_iff (f : String) :
    isSupported f = true ↔
      (pyEndsWith (pyLower f) ".jpg" = true ∨
       pyEndsWith (pyLower f) ".jpeg" = true ∨
       pyEndsWith (pyLower f) ".png" = true) := by
  simp [isSupported, SUPPORTED_FORMATS, List.any_eq_true]

/-- C5: a path is in the enumeration of `process_images` exactly when the
recursive traversal yields it — some walked directory `root` lists a file
name `f` with the path equal to `root` joined with `f` — and `f`, compared
case-insensitively (Python's `lower()` against the lower-case allow list),
ends with `".jpg"`, `".jpeg"` or `".png"`; files with any other extension
are excluded. -/
theorem enumeration_filter (walk : List (String × List String)) (p : String) :
    p ∈ enumerateImages walk ↔
      ∃ root files f, (root, files) ∈ walk ∧ f ∈ files ∧ p = root ++ "/" ++ f ∧
        (pyEndsWith (pyLower f) ".jpg" = true ∨
         pyEndsWith (pyLower f) ".jpeg" = true ∨
         pyEndsWith (pyLower f) ".png" = true) := by
  rw [enumerateImages]
  simp only [List.mem_flatMap, List.mem_map, List.mem_filter]
  constructor
  · rintro ⟨⟨root, files⟩, hmem, f, ⟨hf, hsup⟩, rfl⟩
    exact ⟨root, files, f, hmem, hf, rfl, (isSupported_iff f).mp hsup⟩
  · rintro ⟨root, files, f, hmem, hf, rfl, hsup⟩
    exact ⟨⟨root, files⟩, hmem, f, ⟨hf, (isSupported_iff f).mpr hsup⟩, rfl⟩

/-- C8: the remote object path of an upload made by `process_images`
depends only on the file's base name and the date: it is the fixed
prefix `logos/`, the date, a separator and the base name, whatever
directory the file came from; consequently two files with the same base
name (on the same day) map to the same remote path, and the returned URI
prefixes it with the bucket only — the upload source path does not enter
the URI. -/
theorem remote_path_deterministic (bucket date dir1 dir2 name src1 src2 blob : String)
    (h : '/' ∉ name.data) :
    destinationBlob date (dir1 ++ "/" ++ name) = "logos/" ++ date ++ "/" ++ name ∧
    destinationBlob date (dir1 ++ "/" ++ name) = destinationBlob date (dir2 ++ "/" ++ name) ∧
    uploadToGcs bucket src1 (destinationBlob date (dir1 ++ "/" ++ name)) =
      "gs://" ++ bucket ++ "/" ++ ("logos/" ++ date ++ "/" ++ name) ∧
    uploadToGcs bucket src1 blob = uploadToGcs bucket src2 blob := by
  have h1 : destinationBlob date (dir1 ++ "/" ++ name) = "logos/" ++ date ++ "/" ++ name := by
    rw [destinationBlob, basename_append dir1 name h]
  have h2 : destinationBlob date (dir2 ++ "/" ++ name) = "logos/" ++ date ++ "/" ++ name := by
    rw [destinationBlob, basename_append dir2 name h]
  refine ⟨h1, by rw [h1, h2], by rw [h1]; rfl, rfl⟩

/-- Witness for C8: `a/b/logo.png` and `c/logo.png` map to the same
dated remote path `logos/20240101/logo.png`, and the URI appends it to
the bucket. -/
theorem remote_path_deterministic_witness :
    destinationBlob "20240101" ("a/b" ++ "/" ++ "logo.png") =
      "logos/" ++ "20240101" ++ "/" ++ "logo.png" ∧
    destinationBlob "20240101" ("a/b" ++ "/" ++ "logo.png") =
      destinationBlob "20240101" ("c" ++ "/" ++ "logo.png") ∧
    uploadToGcs "bkt" "a/b/logo.png" (destinationBlob "20240101" ("a/b" ++ "/" ++ "logo.png")) =
      "gs://" ++ "bkt" ++ "/" ++ ("logos/" ++ "20240101" ++ "/" ++ "logo.png") ∧
    uploadToGcs "bkt" "a/b/logo.png" "logos/20240101/logo.png" =
      uploadToGcs "bkt" "c/logo.png" "logos/20240101/logo.png" :=
  remote_path_deterministic "bkt" "20240101" "a/b" "c" "logo.png"
    "a/b/logo.png" "c/logo.png" "logos/20240101/logo.png" (by decide)

/-- C6: the identifier the driver extracts from a creation response name
is exactly the final slash-separated segment, for the corpus, index and
endpoint responses alike, and exactly these extracted identifiers are the
ones used in the subsequent index-creation and deploy calls — no
identifier is invented locally. -/
theorem identifier_extraction (preC preI preE segC segI segE : String)
    (hC : '/' ∉ segC.data) (hI : '/' ∉ segI.data) (hE : '/' ∉ segE.data)
    (walk : List (String × List String)) (bucket : String)
    (spreadsheetId : Option String) (maxResults : Nat) (date : String) :
    extractId (preC ++ "/" ++ segC) = segC ∧
    extractId (preI ++ "/" ++ segI) = segI ∧
    extractId (preE ++ "/" ++ segE) = segE ∧
    Event.createIndexCall segC ∈
      mainTrace walk bucket spreadsheetId maxResults date
        (preC ++ "/" ++ segC) (preI ++ "/" ++ segI) (preE ++ "/" ++ segE) ∧
    Event.deployIndexCall segE segC segI ∈
      mainTrace walk bucket spreadsheetId maxResults date
        (preC ++ "/" ++ segC) (preI ++ "/" ++ segI) (preE ++ "/" ++ segE) := by
  have h1 := extractId_append preC segC hC
  have h2 := extractId_append preI segI hI
  have h3 := extractId_append preE segE hE
  refine ⟨h1, h2, h3, ?_, ?_⟩
  · rw [mainTrace.eq_def]
    simp only [h1, h2, h3, List.mem_append, List.mem_singleton]
    tauto
  · rw [mainTrace.eq_def]
    simp only [h1, h2, h3, List.mem_append, List.mem_singleton]
    tauto

/-- Witness for C6: the response name `.../foo/bar123` of the claim (and
two sibling names for the index and endpoint) yield the identifiers
`bar123`, `idx9` and `ep7`, which are the ones appearing in the
index-creation and deploy calls of a concrete run. -/
theorem identifier_extraction_witness :
    extractId (".../foo" ++ "/" ++ "bar123") = "bar123" ∧
    extractId ("p/idx" ++ "/" ++ "idx9") = "idx9" ∧
    extractId ("p/ep" ++ "/" ++ "ep7") = "ep7" ∧
    Event.createIndexCall "bar123" ∈
      mainTrace [] "bkt" none 10 "20240101"
        (".../foo" ++ "/" ++ "bar123") ("p/idx" ++ "/" ++ "idx9") ("p/ep" ++ "/" ++ "ep7") ∧
    Event.deployIndexCall "ep7" "bar123" "idx9" ∈
      mainTrace [] "bkt" none 10 "20240101"
        (".../foo" ++ "/" ++ "bar123") ("p/idx" ++ "/" ++ "idx9") ("p/ep" ++ "/" ++ "ep7") :=
  identifier_extraction ".../foo" "p/idx" "p/ep" "bar123" "idx9" "ep7"
    (by decide) (by decide) (by decide) [] "bkt" none 10 "20240101"

/-! ## C4: upload-then-register -/

/-- C4: within every batch of the processing loop, the batch's trace is two
full passes — its length is twice the batch size, uploads first — and for
the file at position `j` of the batch, position `j` of the trace is its
upload while position `batch length + j` (strictly later) is its asset
registration, whose URI is exactly the URI the upload returned. -/
theorem upload_then_register (corpusId bucket date : String) (files c : List String)
    (hc : c ∈ batches BATCH_SIZE files) (j : Nat) (p : String)
    (hj : (c)[j]? = some p) :
    (batchTrace corpusId bucket date c).length = 2 * c.length ∧
    j < c.length + j ∧
    (∃ uri,
      (batchTrace corpusId bucket date c)[j]? =
        some (Event.uploadCall bucket p (destinationBlob date p) uri) ∧
      (batchTrace corpusId bucket date c)[c.length + j]? =
        some (Event.createAssetCall corpusId uri)) := by
  have hjlen : j < c.length := by
    rcases List.getElem?_eq_some.mp hj with ⟨h, _⟩
    exact h
  refine ⟨?_, by omega, ?_⟩
  · rw [batchTrace, batchUploadUris]
    simp only [List.length_append, List.length_map]
    omega
  · refine ⟨uploadToGcs bucket p (destinationBlob date p), ?_, ?_⟩
    · rw [batchTrace]
      rw [List.getElem?_append_left (by simpa using hjlen)]
      rw [List.getElem?_map, hj]
      rfl
    · rw [batchTrace]
      rw [List.getElem?_append_right (by simp)]
      simp only [List.length_map]
      rw [batchUploadUris, List.map_map]
      have hidx : c.length + j - c.length = j := by omega
      rw [hidx, List.getElem?_map, hj]
      rfl

/-- Witness for C4: for the singleton batch of a one-file run, the trace
is upload then registration, and the registration reuses the upload's
returned URI. -/
theorem upload_then_register_witness :
    (batchTrace "corp1" "bkt" "20240101" ["x/a.jpg"]).length = 2 * 1 ∧
    0 < 1 + 0 ∧
    (∃ uri,
      (batchTrace "corp1" "bkt" "20240101" ["x/a.jpg"])[0]? =
        some (Event.uploadCall "bkt" "x/a.jpg" (destinationBlob "20240101" "x/a.jpg") uri) ∧
      (batchTrace "corp1" "bkt" "20240101" ["x/a.jpg"])[1 + 0]? =
        some (Event.createAssetCall "corp1" uri)) := by
  have h := upload_then_register "corp1" "bkt" "20240101" ["x/a.jpg"] ["x/a.jpg"]
    (by
      rw [batches_cons BATCH_SIZE ["x/a.jpg"] (by decide) (by decide)]
      simp [BATCH_SIZE, batches_nil])
    0 "x/a.jpg" rfl
  simpa using h

/-! ## C1: the search-and-save stage is an unimplemented stub -/

theorem hasSearchOrSave_append (a b : List Event) :
    hasSearchOrSave (a ++ b) = (hasSearchOrSave a || hasSearchOrSave b) := by
  rw [hasSearchOrSave, hasSearchOrSave, hasSearchOrSave, List.any_append]

theorem hasSearchOrSave_processImages (corpusId bucket date : String) (files : List String) :
    hasSearchOrSave (processImagesTrace corpusId bucket date files) = false := by
  rw [hasSearchOrSave, List.any_eq_false]
  intro e he
  rw [processImagesTrace] at he
  simp only [List.mem_flatMap] at he
  obtain ⟨i, _, hi⟩ := he
  rw [batchTrace, batchUploadUris] at hi
  simp only [List.mem_append, List.mem_map] at hi
  rcases hi with ⟨p, _, rfl⟩ | ⟨u, ⟨p, _, rfl⟩, rfl⟩
  · simp
  · simp

/-- C1 (refuted on the code — the claim describes the intended
search-and-save stage): even when a spreadsheet identifier is provided,
the driver's trace contains no similarity-search call and no spreadsheet
write; the run is identical to one without the identifier, because the
source's final branch only logs "Saving results to spreadsheet..." and
executes a bare `pass` over its TODO comment. -/
theorem search_and_save_stub (walk : List (String × List String))
    (bucket sid : String) (maxResults : Nat)
    (date corpusName indexName endpointName : String) :
    hasSearchOrSave
      (mainTrace walk bucket (some sid) maxResults date corpusName indexName endpointName)
      = false ∧
    mainTrace walk bucket (some sid) maxResults date corpusName indexName endpointName =
      mainTrace walk bucket none maxResults date corpusName indexName endpointName := by
  constructor
  · rw [mainTrace.eq_def]
    simp only [hasSearchOrSave_append, hasSearchOrSave_processImages]
    rfl
  · rfl

/-! ## utils/spreadsheet.py and the pandas payload (C7) -/

/-- A record as `pandas.DataFrame` receives it: a Python dict rendered as
an ordered association list of field name and value (a dict's keys are
unique and iterate in insertion order). -/
def dfColumns (results : List (List (String × String))) : List String :=
  results.foldl
    (fun cols r =>
      r.foldl (fun cs kv => if kv.1 ∈ cs then cs else cs ++ [kv.1]) cols)
    []

/-- The value a `DataFrame` cell takes for a record at a column: the
record's binding of that field (the script's records always bind every
column). -/
def lookupField (r : List (String × String)) (c : String) : String :=
  match r.find? (fun kv => kv.1 == c) with
  | some kv => kv.2
  | none => ""

/-- `df.values.tolist()`: one row per record, each row listing the
record's values in column order. -/
def dfRows (results : List (List (String × String))) : List (List String) :=
  results.map (fun r => (dfColumns results).map (lookupField r))

/-- One `service.spreadsheets().values().update(...).execute()` call:
a full overwrite of the addressed range with the given value matrix
(`update` replaces the range's prior content; the source passes
`valueInputOption='RAW'`). -/
structure SheetUpdate where
  spreadsheetId : String
  range : String
  valueInputOption : String
  values : List (List String)
deriving DecidableEq, Repr

/-- `save_to_spreadsheet(results, spreadsheet_id, range_name, credentials)`
from `src/utils/spreadsheet.py`: turns the records into a `DataFrame`,
prepends the column headers (`df.columns`) to the value rows, and issues
exactly one overwrite call on the target range.  `dfColumns` and `dfRows`
model the pandas constructor: column order is the field order of first
appearance across the records. -/
def saveToSpreadsheet (results : List (List (String × String)))
    (spreadsheetId rangeName : String) : List SheetUpdate :=
  [{ spreadsheetId := spreadsheetId
     range := rangeName
     valueInputOption := "RAW"
     values := dfColumns results :: dfRows results }]

theorem foldl_insert_of_subset (r : List (String × String)) :
    ∀ cols : List String, (∀ k ∈ r.map Prod.fst, k ∈ cols) →
      r.foldl (fun cs kv => if kv.1 ∈ cs then cs else cs ++ [kv.1]) cols = cols := by
  induction r with
  | nil => intro cols _; rfl
  | cons kv r ih =>
    intro cols hsub
    have hk : kv.1 ∈ cols := hsub kv.1 (by simp)
    rw [List.foldl_cons, if_pos hk]
    exact ih cols (fun k hkk => hsub k (by simp [hkk]))

theorem foldl_insert_of_fresh (r : List (String × String)) :
    ∀ cols : List String, (r.map Prod.fst).Nodup →
      (∀ k ∈ r.map Prod.fst, k ∉ cols) →
      r.foldl (fun cs kv => if kv.1 ∈ cs then cs else cs ++ [kv.1]) cols =
        cols ++ r.map Prod.fst := by
  induction r with
  | nil => intro cols _ _; simp
  | cons kv r ih =>
    intro cols hnd hfresh
    have hk : kv.1 ∉ cols := hfresh kv.1 (by simp)
    rw [List.foldl_cons, if_neg hk]
    rw [List.map_cons] at hnd
    have hnd2 := List.nodup_cons.mp hnd
    rw [ih (cols ++ [kv.1]) hnd2.2 ?fresh]
    · simp
    case fresh =>
      intro k hkk
      simp only [List.mem_append, List.mem_singleton]
      rintro (hin | rfl)
      · exact hfresh k (by simp [hkk]) hin
      · exact hnd2.1 hkk

/-- Under uniform records, the pandas column order is the first record's
field order. -/
theorem dfColumns_uniform (r0 : List (String × String))
    (rest : List (List (String × String)))
    (huni : ∀ r ∈ rest, r.map Prod.fst = r0.map Prod.fst)
    (hnodup : (r0.map Prod.fst).Nodup) :
    dfColumns (r0 :: rest) = r0.map Prod.fst := by
  rw [dfColumns, List.foldl_cons]
  rw [foldl_insert_of_fresh r0 [] hnodup (by simp)]
  rw [List.nil_append]
  induction rest with
  | nil => rfl
  | cons r rest ih =>
    rw [List.foldl_cons]
    rw [foldl_insert_of_subset r (r0.map Prod.fst) ?sub]
    · exact ih (fun s hs => huni s (by simp [hs]))
    case sub =>
      intro k hk
      rw [huni r (by simp)] at hk
      exact hk

/-- Reading a record back along its own (duplicate-free) field order
yields its values in order. -/
theorem map_lookupField_self (r : List (String × String))
    (hnd : (r.map Prod.fst).Nodup) :
    (r.map Prod.fst).map (lookupField r) = r.map Prod.snd := by
  induction r with
  | nil => rfl
  | cons kv r ih =>
    rw [List.map_cons] at hnd
    have hnd2 := List.nodup_cons.mp hnd
    rw [List.map_cons, List.map_cons, List.map_cons]
    have hhead : lookupField (kv :: r) kv.1 = kv.2 := by
      rw [lookupField, List.find?_cons_of_pos _ (by simp)]
    rw [hhead]
    have htail : (r.map Prod.fst).map (lookupField (kv :: r)) =
        (r.map Prod.fst).map (lookupField r) := by
      apply List.map_congr_left
      intro k hk
      have hne : (kv.1 == k) = false := by
        simp only [beq_eq_false_iff_ne, ne_eq]
        intro hEQ
        exact hnd2.1 (hEQ ▸ hk)
      rw [lookupField, lookupField, List.find?_cons_of_neg _ (by simp [hne])]
    rw [htail, ih hnd2.2]

/-- C7: for a non-empty list of uniform records, `save_to_spreadsheet`
issues exactly one full-overwrite call on the target range, whose
payload's first row is the first record's field names (the header) and
whose remaining rows are each record's values in that same field order. -/
theorem result_sink_payload (results : List (List (String × String)))
    (spreadsheetId rangeName : String) (r0 : List (String × String))
    (rest : List (List (String × String)))
    (hres : results = r0 :: rest)
    (huni : ∀ r ∈ results, r.map Prod.fst = r0.map Prod.fst)
    (hnodup : (r0.map Prod.fst).Nodup) :
    saveToSpreadsheet results spreadsheetId rangeName =
      [{ spreadsheetId := spreadsheetId
         range := rangeName
         valueInputOption := "RAW"
         values := (r0.map Prod.fst) :: results.map (fun r => r.map Prod.snd) }] := by
  subst hres
  have hcols : dfColumns (r0 :: rest) = r0.map Prod.fst :=
    dfColumns_uniform r0 rest (fun r hr => huni r (by simp [hr])) hnodup
  rw [saveToSpreadsheet]
  congr 1
  rw [SheetUpdate.mk.injEq]
  refine ⟨rfl, rfl, rfl, ?_⟩
  rw [dfRows, hcols]
  congr 1
  apply List.map_congr_left
  intro r hr
  rw [← huni r hr]
  exact map_lookupField_self r ((huni r hr).symm ▸ hnodup)

/-- Witness for C7: the two result rows of the claim, with fields Query
Image, Similar Image and Similarity Score and target range `Sheet1!A1`,
produce the single overwrite call whose payload is the three header
strings followed by the two records' values in that order. -/
theorem result_sink_payload_witness :
    saveToSpreadsheet
      [[("Query Image", "q.png"), ("Similar Image", "s1.png"), ("Similarity Score", "0.98")],
       [("Query Image", "q.png"), ("Similar Image", "s2.png"), ("Similarity Score", "0.87")]]
      "sheet-id-1" "Sheet1!A1" =
      [{ spreadsheetId := "sheet-id-1"
         range := "Sheet1!A1"
         valueInputOption := "RAW"
         values := [["Query Image", "Similar Image", "Similarity Score"],
                    ["q.png", "s1.png", "0.98"],
                    ["q.png", "s2.png", "0.87"]] }] := by
  have h := result_sink_payload
    [[("Query Image", "q.png"), ("Similar Image", "s1.png"), ("Similarity Score", "0.98")],
     [("Query Image", "q.png"), ("Similar Image", "s2.png"), ("Similarity Score", "0.87")]]
    "sheet-id-1" "Sheet1!A1"
    [("Query Image", "q.png"), ("Similar Image", "s1.png"), ("Similarity Score", "0.98")]
    [[("Query Image", "q.png"), ("Similar Image", "s2.png"), ("Similarity Score", "0.87")]]
    rfl (by decide) (by decide)
  simpa using h

end LogoSim

